import Mathlib

/-!
Verification of the dothuntcli availability-resolution engine.

This file gives a shallow embedding, in Lean 4, of the Go sources of the
`dothuntcli` repository (domain normalizer, RDAP client, WHOIS client,
availability checker, label generator), together with theorems settling the
frozen claims about the program.  Machine strings are modelled as Lean
`String` or `List Char` (the sources are byte-oriented but every input the
claims touch is ASCII, where the two agree); times and Go `int` values are
modelled as `Int` (milliseconds for durations); fallible Go functions return
`Except String` or `Option`.  External effects (HTTP transport, raw TCP,
the IDNA library, `url.Parse`) are parameters of the embedded functions, so
that every theorem quantifies over their behaviour.
-/

namespace DotHunt

/-- Whitespace as trimmed by Go `strings.TrimSpace` (ASCII part of
`unicode.IsSpace`). -/
def isGoSpace (c : Char) : Bool :=
  c = ' ' || c = '\t' || c = '\n' || c = '\x0b' || c = '\x0c' || c = '\r'

/-- Drop leading characters satisfying `p`. -/
def dropLeading (p : Char → Bool) (l : List Char) : List Char :=
  l.dropWhile p

/-- Go `strings.TrimSpace`, on character lists. -/
def trimSpace (l : List Char) : List Char :=
  ((l.dropWhile isGoSpace).reverse.dropWhile isGoSpace).reverse

/-- Go `strings.HasPrefix`-style test, on character lists. -/
def startsWithL : List Char → List Char → Bool
  | _, [] => true
  | [], _ :: _ => false
  | c :: cs, p :: ps => c = p && startsWithL cs ps

/-- Go `strings.Contains`, on character lists. -/
def containsSub : List Char → List Char → Bool
  | [], pat => pat.isEmpty
  | c :: rest, pat => startsWithL (c :: rest) pat || containsSub rest pat

/-- Membership test for a single character (Go `strings.ContainsRune`). -/
def containsChar (l : List Char) (c : Char) : Bool :=
  l.contains c

/-- Index of the first character of `l` drawn from `set`, as used by Go
`strings.IndexAny`. -/
def indexAny (l : List Char) (set : List Char) : Option Nat :=
  l.findIdx? (fun c => set.contains c)

/-- Index of the last occurrence of `c` (Go `strings.LastIndexByte`). -/
def lastIndexOfChar (l : List Char) (c : Char) : Option Nat :=
  match l.findIdx? (fun x => x = c) with
  | none => none
  | some _ => some (l.length - 1 - ((l.reverse.findIdx? (fun x => x = c)).getD 0))

/-- Index of the first occurrence of `c` (Go `strings.IndexByte`). -/
def firstIndexOfChar (l : List Char) (c : Char) : Option Nat :=
  l.findIdx? (fun x => x = c)

/-- ASCII lower-casing of one character, the fragment of Go
`unicode.ToLower` that the claims exercise. -/
def lowerChar (c : Char) : Char :=
  if 'A' ≤ c ∧ c ≤ 'Z' then Char.ofNat (c.toNat + 32) else c

/-- Go `strings.ToLower`, on character lists (ASCII case mapping). -/
def toLowerL (l : List Char) : List Char :=
  l.map lowerChar

/-- Go `strings.TrimSuffix s "."`: remove one trailing dot if present. -/
def trimOneDotSuffix (l : List Char) : List Char :=
  match l.reverse with
  | '.' :: rest => rest.reverse
  | _ => l

/-- Decimal digit test (`c >= '0' && c <= '9'`). -/
def isDigitChar (c : Char) : Bool :=
  '0' ≤ c && c ≤ '9'

end DotHunt

namespace DotHunt.GoDomain

/-- Embedding of `isAllDigits` from `internal/domain/domain.go`: true when
the string is non-empty and every byte is a decimal digit. -/
def isAllDigits (s : List Char) : Bool :=
  if s = [] then false
  else s.all isDigitChar

/-- Embedding of Go `net.SplitHostPort` (net/ipsock.go): split `host:port`
at the last colon, handling a bracketed `[host]:port` form; `none` models
every error return (missing port, too many colons, bracket errors). -/
def splitHostPort (s : List Char) : Option (List Char × List Char) :=
  match lastIndexOfChar s ':' with
  | none => none
  | some i =>
    if s.head? = some '[' then
      match firstIndexOfChar s ']' with
      | none => none
      | some e =>
        if e + 1 = s.length then none
        else if e + 1 = i then
          if containsChar (s.drop 1) '[' then none
          else if containsChar (s.drop (e + 1)) ']' then none
          else some ((s.drop 1).take (e - 1), s.drop (i + 1))
        else none
    else
      if containsChar (s.take i) ':' then none
      else if containsChar s '[' then none
      else if containsChar s ']' then none
      else some (s.take i, s.drop (i + 1))

/-- The port-stripping step of `Normalize` (domain.go lines 41-52): try
`net.SplitHostPort` first; on error fall back to removing a trailing
`:digits` suffix when the colon is not at position 0. -/
def portStrip (s : List Char) : List Char :=
  match splitHostPort s with
  | some hp => hp.1
  | none =>
    match lastIndexOfChar s ':' with
    | some i =>
      if 0 < i ∧ i < s.length - 1 ∧ isAllDigits (s.drop (i + 1)) then s.take i else s
    | none => s

/-- Embedding of `isValidDomainASCII` from domain.go: length 1..253, no
edge dots, at least two labels, each label 1..63 of `[a-z0-9-]` with no
edge hyphen. -/
def validLabelChars (label : List Char) : Bool :=
  label.all (fun c => ('a' ≤ c && c ≤ 'z') || ('0' ≤ c && c ≤ '9') || c = '-')

/-- Split on a separator character, Go `strings.Split` (every part kept,
including empty ones). -/
def splitOnChar (sep : Char) : List Char → List (List Char)
  | [] => [[]]
  | c :: rest =>
    let r := splitOnChar sep rest
    if c = sep then [] :: r
    else
      match r with
      | [] => [[c]]
      | h :: t => (c :: h) :: t

/-- One label of `isValidDomainASCII`: 1..63 characters of `[a-z0-9-]`,
no leading or trailing hyphen. -/
def validLabel (label : List Char) : Bool :=
  1 ≤ label.length && label.length ≤ 63 &&
  label.head? ≠ some '-' && label.getLast? ≠ some '-' &&
  validLabelChars label

/-- Embedding of `isValidDomainASCII` (domain.go lines 110-138). -/
def isValidDomainASCII (s : List Char) : Bool :=
  if s.length < 1 || 253 < s.length then false
  else if s.head? = some '.' || s.getLast? = some '.' then false
  else if (splitOnChar '.' s).length < 2 then false
  else (splitOnChar '.' s).all validLabel

/-- Environment for `Normalize`: the behaviour of the two external
libraries it calls.  `urlHost s` models `url.Parse(s).Host` (`none` for a
parse error), and `toASCII` models `idna.Lookup.ToASCII` from
golang.org/x/net/idna. -/
structure NormEnv where
  urlHost : String → Option String
  toASCII : String → Except String String

/-- The URL step of `Normalize` (domain.go lines 27-34): when the string
contains `"://"`, replace it with the host parsed by `url.Parse` if parsing
succeeded with a non-empty host. -/
def urlStep (env : NormEnv) (s : List Char) : List Char :=
  if containsSub s "://".data then
    match env.urlHost (String.mk s) with
    | some h => if h.data ≠ [] then h.data else s
    | none => s
  else s

/-- The path-cut step of `Normalize` (domain.go lines 36-39): truncate at
the first `/`, `?` or `#`. -/
def pathCut (s : List Char) : List Char :=
  match indexAny s "/?#".data with
  | some i => s.take i
  | none => s

/-- The whole pre-IDNA pipeline of `Normalize` applied after the initial
trim: URL host, path cut, port strip, one trailing dot, trim, lower-case
(domain.go lines 27-55, in source order). -/
def preprocess (env : NormEnv) (s0 : List Char) : List Char :=
  toLowerL (trimSpace (trimOneDotSuffix (portStrip (pathCut (urlStep env s0)))))

/-- Embedding of `Normalize` from `internal/domain/domain.go`: trim, take
the URL host when `"://"` occurs, cut at the first `/?#`, strip a port,
trim one trailing dot, trim and lower-case, run IDNA lookup conversion,
then require a dot and `isValidDomainASCII`. -/
def Normalize (env : NormEnv) (input : String) : Except String String :=
  let s0 := trimSpace input.data
  if s0 = [] then .error "empty domain"
  else
    let s5 := preprocess env s0
    if s5 = [] then .error "empty domain"
    else
      match env.toASCII (String.mk s5) with
      | .error e => .error ("idna: " ++ e)
      | .ok ascii =>
        if ¬ containsChar ascii.data '.' then
          .error ("domain must contain a dot: " ++ input)
        else if ¬ isValidDomainASCII ascii.data then
          .error ("invalid domain: " ++ input)
        else .ok ascii

/-- Character class of a valid normalized domain: lower-case letter, digit,
hyphen, or dot. -/
def domChar (c : Char) : Bool :=
  ('a' ≤ c && c ≤ 'z') || ('0' ≤ c && c ≤ '9') || c = '-' || c = '.'

end DotHunt.GoDomain

namespace DotHunt.GoDomain

lemma dropWhile_eq_self_of {p : Char → Bool} {l : List Char}
    (h : ∀ c ∈ l, p c = false) : l.dropWhile p = l := by
  cases l with
  | nil => rfl
  | cons x xs =>
    have hx := h x (List.mem_cons_self x xs)
    simp [List.dropWhile, hx]

lemma trimSpace_eq_self {l : List Char}
    (h : ∀ c ∈ l, isGoSpace c = false) : trimSpace l = l := by
  unfold trimSpace
  rw [dropWhile_eq_self_of h]
  rw [dropWhile_eq_self_of (fun c hc => h c (List.mem_reverse.mp hc))]
  exact List.reverse_reverse l

lemma toLowerL_eq_self {l : List Char}
    (h : ∀ c ∈ l, lowerChar c = c) : toLowerL l = l := by
  induction l with
  | nil => rfl
  | cons x xs ih =>
    have hx := h x (List.mem_cons_self x xs)
    have hxs := ih (fun c hc => h c (List.mem_cons_of_mem x hc))
    simp only [toLowerL, List.map_cons] at hxs ⊢
    rw [hx, hxs]

lemma containsSub_head_mem {l : List Char} {p : Char} {ps : List Char}
    (h : containsSub l (p :: ps) = true) : p ∈ l := by
  induction l with
  | nil => simp [containsSub] at h
  | cons c rest ih =>
    simp only [containsSub, Bool.or_eq_true] at h
    rcases h with h | h
    · simp only [startsWithL, Bool.and_eq_true, decide_eq_true_eq] at h
      exact h.1 ▸ List.mem_cons_self c rest
    · exact List.mem_cons_of_mem c (ih h)

lemma findIdx?_eq_none_of {p : Char → Bool} {l : List Char}
    (h : ∀ c ∈ l, p c = false) : l.findIdx? p = none := by
  induction l with
  | nil => rfl
  | cons x xs ih =>
    have hx := h x (List.mem_cons_self x xs)
    have hxs := ih (fun c hc => h c (List.mem_cons_of_mem x hc))
    simp [List.findIdx?_cons, hx, hxs]

lemma splitOnChar_ne_nil (sep : Char) (s : List Char) : splitOnChar sep s ≠ [] := by
  cases s with
  | nil => simp [splitOnChar]
  | cons c rest =>
    simp only [splitOnChar]
    split
    · simp
    · cases h : splitOnChar sep rest <;> simp

lemma mem_splitOnChar {sep : Char} {s : List Char} {c : Char} (hc : c ∈ s) :
    c = sep ∨ ∃ part ∈ splitOnChar sep s, c ∈ part := by
  induction s with
  | nil => cases hc
  | cons x rest ih =>
    simp only [splitOnChar]
    rcases List.mem_cons.mp hc with rfl | hmem
    · split
      · next hxs => exact Or.inl hxs
      · next hxs =>
        cases h : splitOnChar sep rest with
        | nil => exact absurd h (splitOnChar_ne_nil sep rest)
        | cons hd tl =>
          exact Or.inr ⟨c :: hd, List.mem_cons_self _ _, List.mem_cons_self _ _⟩
    · rcases ih hmem with h | ⟨part, hpart, hcpart⟩
      · exact Or.inl h
      · split
        · exact Or.inr ⟨part, List.mem_cons_of_mem _ hpart, hcpart⟩
        · cases h : splitOnChar sep rest with
          | nil => exact absurd h (splitOnChar_ne_nil sep rest)
          | cons hd tl =>
            rw [h] at hpart
            rcases List.mem_cons.mp hpart with rfl | htl
            · exact Or.inr ⟨x :: part, List.mem_cons_self _ _,
                List.mem_cons_of_mem x hcpart⟩
            · exact Or.inr ⟨part, List.mem_cons_of_mem _ htl, hcpart⟩

/-- Every character of a string accepted by `isValidDomainASCII` is a
lower-case letter, digit, hyphen, or dot. -/
lemma isValidDomainASCII_chars {s : List Char}
    (h : isValidDomainASCII s = true) : ∀ c ∈ s, domChar c = true := by
  intro c hc
  unfold isValidDomainASCII at h
  split at h
  · cases h
  · split at h
    · cases h
    · split at h
      · cases h
      · rcases @mem_splitOnChar '.' s c hc with rfl | ⟨part, hpart, hcpart⟩
        · simp [domChar]
        · have hlab : validLabel part = true := by
            have := List.all_eq_true.mp h part hpart
            simpa using this
          unfold validLabel at hlab
          simp only [Bool.and_eq_true] at hlab
          have hchars : validLabelChars part = true := hlab.2
          have := List.all_eq_true.mp hchars c (by simpa using hcpart)
          simp only [Bool.or_eq_true, Bool.and_eq_true, decide_eq_true_eq] at this ⊢
          unfold domChar
          simp only [Bool.or_eq_true, Bool.and_eq_true, decide_eq_true_eq]
          tauto

lemma domChar_ne {c : Char} (h : domChar c = true) (x : Char)
    (hx : domChar x = false) : c ≠ x := by
  intro heq
  rw [heq, hx] at h
  cases h

lemma domChar_not_space {c : Char} (h : domChar c = true) : isGoSpace c = false := by
  cases hsp : isGoSpace c with
  | false => rfl
  | true =>
    exfalso
    unfold isGoSpace at hsp
    simp only [Bool.or_eq_true, decide_eq_true_eq] at hsp
    rcases hsp with ((((rfl | rfl) | rfl) | rfl) | rfl) | rfl <;>
      exact absurd h (by decide)

lemma string_mk_data (s : String) : String.mk s.data = s := rfl

lemma isValid_facts {n : List Char} (h : isValidDomainASCII n = true) :
    n ≠ [] ∧ n.getLast? ≠ some '.' := by
  unfold isValidDomainASCII at h
  split at h
  · simp at h
  next hlen =>
    split at h
    · simp at h
    next hdot =>
      simp only [Bool.or_eq_true, decide_eq_true_eq, not_or, not_lt] at hlen hdot
      exact ⟨List.ne_nil_of_length_pos (by omega), hdot.2⟩

lemma domChar_lower {c : Char} (h : domChar c = true) : lowerChar c = c := by
  unfold domChar at h
  simp only [Bool.or_eq_true, Bool.and_eq_true, decide_eq_true_eq] at h
  unfold lowerChar
  rw [if_neg]
  intro hAZ
  rcases h with ((⟨h1, _⟩ | ⟨_, h2⟩) | heq) | heq
  · exact absurd (le_trans h1 hAZ.2) (by decide)
  · exact absurd (le_trans hAZ.1 h2) (by decide)
  · rw [heq] at hAZ
    exact absurd hAZ.1 (by decide)
  · rw [heq] at hAZ
    exact absurd hAZ.1 (by decide)

end DotHunt.GoDomain

namespace DotHunt.GoDomain

lemma valid_no_colon {n : List Char} (h : isValidDomainASCII n = true) :
    n.findIdx? (fun x => x = ':') = none := by
  apply findIdx?_eq_none_of
  intro c hc
  have := domChar_ne (isValidDomainASCII_chars h c hc) ':' (by decide)
  simp [this]

/-- On a string that already satisfies `isValidDomainASCII`, the whole
pre-IDNA pipeline of `Normalize` is the identity. -/
lemma preprocess_valid_fixed (env : NormEnv) {n : List Char}
    (h : isValidDomainASCII n = true) :
    trimSpace n = n ∧ preprocess env n = n := by
  have hchars := isValidDomainASCII_chars h
  have htrim : trimSpace n = n :=
    trimSpace_eq_self (fun c hc => domChar_not_space (hchars c hc))
  refine ⟨htrim, ?_⟩
  have hurl : urlStep env n = n := by
    unfold urlStep
    rw [if_neg]
    intro hcon
    have : ':' ∈ n := @containsSub_head_mem n ':' ['/', '/'] hcon
    exact absurd (hchars ':' this) (by decide)
  have hpath : pathCut n = n := by
    have hpred : ∀ c ∈ n, (("/?#".data).contains c) = false := by
      intro c hc
      have hdc := hchars c hc
      cases hcon : List.contains "/?#".data c with
      | false => rfl
      | true =>
        exfalso
        have hmem : c ∈ "/?#".data := by
          rw [List.contains_eq_any_beq] at hcon
          rcases List.any_eq_true.mp hcon with ⟨x, hx, hbeq⟩
          exact (beq_iff_eq.mp hbeq) ▸ hx
        have hset : "/?#".data = ['/', '?', '#'] := rfl
        rw [hset, List.mem_cons, List.mem_cons, List.mem_singleton] at hmem
        rcases hmem with rfl | rfl | rfl <;> exact absurd hdc (by decide)
    unfold pathCut indexAny
    rw [findIdx?_eq_none_of hpred]
  have hport : portStrip n = n := by
    have hidx : lastIndexOfChar n ':' = none := by
      unfold lastIndexOfChar
      rw [valid_no_colon h]
    unfold portStrip splitHostPort
    rw [hidx]
  have hdotsuf : trimOneDotSuffix n = n := by
    unfold trimOneDotSuffix
    cases hr : n.reverse with
    | nil => rfl
    | cons a as =>
      have hlast : n.getLast? = some a := by
        rw [← List.head?_reverse, hr]
        rfl
      split
      · next heq =>
        rcases List.cons_eq_cons.mp heq with ⟨rfl, rfl⟩
        exact absurd hlast (by simpa using (isValid_facts h).2)
      · rfl
  have hlower : toLowerL n = n :=
    toLowerL_eq_self (fun c hc => domChar_lower (hchars c hc))
  unfold preprocess
  rw [hurl, hpath, hport, hdotsuf, htrim, hlower]

/-- Inversion of a successful `Normalize`: the result came out of the IDNA
step, contains a dot, and satisfies `isValidDomainASCII`. -/
lemma Normalize_ok_facts {env : NormEnv} {d n : String}
    (h : Normalize env d = .ok n) :
    (∃ s, env.toASCII s = .ok n) ∧ containsChar n.data '.' = true ∧
      isValidDomainASCII n.data = true := by
  simp only [Normalize] at h
  split at h
  · exact Except.noConfusion h
  · split at h
    · exact Except.noConfusion h
    · split at h
      · exact Except.noConfusion h
      · next ascii heq =>
        split at h
        · exact Except.noConfusion h
        · next hdot =>
          split at h
          · exact Except.noConfusion h
          · next hvalid =>
            cases h
            refine ⟨⟨_, heq⟩, ?_, ?_⟩
            · simpa using hdot
            · simpa using hvalid

/-- C5.  Normalize is idempotent: whenever `Normalize` succeeds, feeding
its output back in succeeds with the same output.  The hypothesis captures
the contract of `idna.Lookup.ToASCII`: the library is idempotent on its own
outputs (an output that moreover passes `isValidDomainASCII` is converted
to itself). -/
theorem normalize_idempotent (env : NormEnv)
    (hto : ∀ s t, env.toASCII s = .ok t → isValidDomainASCII t.data = true →
      env.toASCII t = .ok t)
    (d n : String) (h : Normalize env d = .ok n) :
    Normalize env n = .ok n := by
  obtain ⟨⟨s, hs⟩, hdot, hvalid⟩ := Normalize_ok_facts h
  have hton : env.toASCII n = .ok n := hto s n hs hvalid
  obtain ⟨htrim, hpre⟩ := preprocess_valid_fixed env hvalid
  have hne : n.data ≠ [] := (isValid_facts hvalid).1
  simp only [Normalize, htrim, hpre, if_neg hne, string_mk_data, hton]
  simp [hdot, hvalid]

/-- Witness for C5 at a concrete input, with the identity model of the
IDNA conversion (which is what `idna.Lookup.ToASCII` does on the ASCII
strings exercised here). -/
theorem normalize_idempotent_witness :
    Normalize ⟨fun _ => none, fun s => .ok s⟩ "example.com" = .ok "example.com" := by
  have hto : ∀ s t, (Except.ok s : Except String String) = .ok t →
      isValidDomainASCII t.data = true → (Except.ok t : Except String String) = .ok t := by
    intro s t hst _
    cases hst
    rfl
  exact normalize_idempotent ⟨fun _ => none, fun s => .ok s⟩ hto
    " Example.COM. " "example.com" (by rfl)

/-- Concrete environment for counterexample evaluation: `url.Parse` is
never consulted (the inputs contain no `"://"`), and the IDNA conversion is
the identity, which is what `idna.Lookup.ToASCII` returns on the already
valid ASCII names these inputs reduce to. -/
def asciiIdEnv : NormEnv := ⟨fun _ => none, fun s => .ok s⟩

/-- The suffix after the last colon is non-empty and not all digits. -/
def hasNonDigitPortSuffix (s : List Char) : Bool :=
  match lastIndexOfChar s ':' with
  | some i => decide (i < s.length - 1) && !isAllDigits (s.drop (i + 1))
  | none => false

lemma lastIndexOfChar_lt {s : List Char} {c : Char} {i : Nat}
    (h : lastIndexOfChar s c = some i) : s ≠ [] ∧ i ≤ s.length - 1 := by
  unfold lastIndexOfChar at h
  split at h
  · exact Option.noConfusion h
  · next k hk =>
    have hne : s ≠ [] := by
      intro hs
      rw [hs, List.findIdx?_nil] at hk
      exact Option.noConfusion hk
    refine ⟨hne, ?_⟩
    have hi := Option.some.inj h
    omega

lemma splitHostPort_host_short {s : List Char} {hp : List Char × List Char}
    (h : splitHostPort s = some hp) : hp.1.length < s.length := by
  unfold splitHostPort at h
  split at h
  · exact Option.noConfusion h
  · next i hidx =>
    obtain ⟨hne, hle⟩ := lastIndexOfChar_lt hidx
    have hpos : 1 ≤ s.length := List.length_pos.mpr hne
    split at h
    · split at h
      · exact Option.noConfusion h
      · split at h
        · exact Option.noConfusion h
        · split at h
          · split at h
            · exact Option.noConfusion h
            · split at h
              · exact Option.noConfusion h
              · cases h
                simp only [List.length_take, List.length_drop]
                omega
          · exact Option.noConfusion h
    · split at h
      · exact Option.noConfusion h
      · split at h
        · exact Option.noConfusion h
        · split at h
          · exact Option.noConfusion h
          · cases h
            simp only [List.length_take]
            omega

/-- C6 counterexample.  `Normalize` accepts `"example.com:abc"` and strips
the `:abc` suffix even though `abc` is not all digits — `net.SplitHostPort`
succeeds on any bracket-free `host:port` with one colon and does not check
that the port is numeric — refuting the claim that such inputs keep their
suffix and are rejected. -/
theorem normalize_nondigit_port_counterexample :
    Normalize asciiIdEnv "example.com:abc" = .ok "example.com" ∧
      isAllDigits "abc".data = false := by
  constructor
  · rfl
  · rfl

/-- C6 amended.  The all-digits requirement governs only the fallback path:
on an input whose text after the final colon is non-empty and contains a
non-digit, the suffix is removed exactly when `net.SplitHostPort` succeeds
(one colon, bracket-free, or a well-formed bracketed host); when
`SplitHostPort` fails the suffix is kept. -/
theorem portStrip_nondigit_amended (s : List Char)
    (h : hasNonDigitPortSuffix s = true) :
    portStrip s = s ↔ splitHostPort s = none := by
  unfold hasNonDigitPortSuffix at h
  rcases hidx : lastIndexOfChar s ':' with _ | i
  · rw [hidx] at h
    exact absurd h (by simp)
  · rw [hidx] at h
    simp only [Bool.and_eq_true, decide_eq_true_eq, Bool.not_eq_true'] at h
    constructor
    · intro hfix
      rcases hsp : splitHostPort s with _ | hp
      · rfl
      · exfalso
        have hshort := splitHostPort_host_short hsp
        have : portStrip s = hp.1 := by
          unfold portStrip
          rw [hsp]
        rw [hfix] at this
        rw [this] at hshort
        omega
    · intro hsp
      unfold portStrip
      rw [hsp, hidx]
      dsimp only
      rw [if_neg]
      intro hcond
      rw [h.2] at hcond
      exact Bool.noConfusion hcond.2.2

/-- Witness for the amended C6 statement: `"a:b:cx"` has a non-digit text
after its last colon, `SplitHostPort` fails on it (two colons), and the
suffix is indeed kept. -/
theorem portStrip_nondigit_amended_witness :
    splitHostPort "a:b:cx".data = none ∧ portStrip "a:b:cx".data = "a:b:cx".data :=
  ⟨by decide, (portStrip_nondigit_amended "a:b:cx".data (by decide)).mpr (by decide)⟩

end DotHunt.GoDomain


namespace DotHunt.Whois

/-- The ordered not-found needle list of `internal/whois` (`notFoundPatterns`):
`(needle, pattern tag)` pairs, matched against the lower-cased body. -/
def notFoundPatterns : List (String × String) :=
  [("no match for", "no_match_for"),
   ("no data found", "no_data_found"),
   ("no entries found", "no_entries_found"),
   ("domain not found", "domain_not_found"),
   ("no such domain", "no_such_domain"),
   ("status: free", "status_free"),
   ("not found", "not_found")]

/-- The RE2 character class `\s`: space, tab, newline, form feed, carriage
return. -/
def isRegexWS (c : Char) : Bool :=
  c = ' ' || c = '\t' || c = '\n' || c = '\x0c' || c = '\r'

/-- Strip a literal pattern case-insensitively (the `(?i)` literal matching
of RE2, ASCII case folding); returns the remaining input on success. -/
def stripCI : List Char → List Char → Option (List Char)
  | [], l => some l
  | _ :: _, [] => none
  | p :: ps, c :: cs => if lowerChar c = lowerChar p then stripCI ps cs else none

/-- The trailing `\s*$` of the classification regexes under `(?m)`: a run
of `\s` characters that reaches the end of the body or contains a newline
(`$` matches at the end and before any `\n`). -/
def tailOK : List Char → Bool
  | [] => true
  | c :: r => if c = '\n' then true else if isRegexWS c then tailOK r else false

/-- Match `\s*<dom>\s*$` at the current position with full backtracking
over the first `\s*`. -/
def wsDomTail (dom : List Char) : List Char → Bool
  | [] =>
    (match stripCI dom [] with
     | some rest => tailOK rest
     | none => false)
  | c :: r =>
    (match stripCI dom (c :: r) with
     | some rest => tailOK rest
     | none => false) || (isRegexWS c && wsDomTail dom r)

/-- Match `\s*:` (greedy skip is safe because `:` is not in `\s`). -/
def skipWSColon (l : List Char) : Option (List Char) :=
  match l.dropWhile isRegexWS with
  | ':' :: r => some r
  | _ => none

/-- The three regex heads used by `classify`: `domain name:`, `domain:`,
and `domain\s*:`. -/
inductive HeadPat where
  | dn
  | d
  | dws

/-- Consume one of the three heads at the current position. -/
def matchHead : HeadPat → List Char → Option (List Char)
  | .dn, l => stripCI "domain name:".data l
  | .d, l => stripCI "domain:".data l
  | .dws, l =>
    match stripCI "domain".data l with
    | some r => skipWSColon r
    | none => none

/-- Match one full classification regex at the current position (which must
be a line start). -/
def matchHere (hp : HeadPat) (dom l : List Char) : Bool :=
  match matchHead hp l with
  | some rest => wsDomTail dom rest
  | none => false

/-- Scan the positions that follow a newline. -/
def reSearchAux (hp : HeadPat) (dom : List Char) : List Char → Bool
  | [] => false
  | c :: r => (c = '\n' && matchHere hp dom r) || reSearchAux hp dom r

/-- Existence of a match of `(?im)^<head>\s*<dom>\s*$` anywhere in the
body: at the start, or right after any newline (the `(?m)` anchors). -/
def reSearch (hp : HeadPat) (dom l : List Char) : Bool :=
  matchHere hp dom l || reSearchAux hp dom l

/-- Characters escaped by Go `regexp.QuoteMeta`. -/
def specialRegexChars : List Char :=
  ['\\', '.', '+', '*', '?', '(', ')', '|', '[', ']',
   Char.ofNat 123, Char.ofNat 125, '^', '$']

/-- Go `regexp.QuoteMeta`, on character lists. -/
def quoteMeta (l : List Char) : List Char :=
  l.foldr (fun c acc => (if specialRegexChars.contains c then ['\\', c] else [c]) ++ acc) []

/-- Source text of the first regex built by `classify`. -/
def reDNPattern (domain : String) : String :=
  "(?im)^domain name:\\s*" ++ String.mk (quoteMeta domain.data) ++ "\\s*$"

/-- Source text of the second regex built by `classify`. -/
def reDPattern (domain : String) : String :=
  "(?im)^domain:\\s*" ++ String.mk (quoteMeta domain.data) ++ "\\s*$"

/-- Source text of the third regex built by `classify`. -/
def reDWSPattern (domain : String) : String :=
  "(?im)^domain\\s*:\\s*" ++ String.mk (quoteMeta domain.data) ++ "\\s*$"

/-- Embedding of `classify` from `internal/whois` (part_001 lines 265-291):
needle scan over the lower-cased body, then the three anchored regexes over
the original-case body, then the record-field heuristic, else unknown. -/
def classify (domain body : String) : String × String :=
  let l := toLowerL body.data
  match notFoundPatterns.find? (fun p => containsSub l p.1.data) with
  | some p => ("available", p.2)
  | none =>
    if reSearch .dn domain.data body.data then ("taken", reDNPattern domain)
    else if reSearch .d domain.data body.data then ("taken", reDPattern domain)
    else if reSearch .dws domain.data body.data then ("taken", reDWSPattern domain)
    else if containsSub l "domain name:".data || containsSub l "registrar:".data then
      ("taken", "heuristic_record_fields")
    else ("unknown", "")

/-- Status-only restatement of the classification, written from the spec
text: any needle in the lower-cased body gives `available`; else any of the
three regexes on the original-case body gives `taken`; else the
`domain name:` / `registrar:` heuristic gives `taken`; else `unknown`. -/
def classifySpecStatus (domain body : String) : String :=
  let lower := toLowerL body.data
  if notFoundPatterns.any (fun p => containsSub lower p.1.data) then "available"
  else if reSearch .dn domain.data body.data ∨ reSearch .d domain.data body.data ∨
      reSearch .dws domain.data body.data then "taken"
  else if containsSub lower "domain name:".data ∨ containsSub lower "registrar:".data then
    "taken"
  else "unknown"

end DotHunt.Whois

namespace DotHunt.Whois

/-- C1.  WHOIS classification proceeds exactly in the spec's order: the
status always agrees with the spec-side restatement `classifySpecStatus`
(needles on the lower-cased body, then the three anchored regexes on the
original-case body, then the record-field heuristic, else unknown); the
first matching needle's tag is the returned pattern; the heuristic branch
tags `heuristic_record_fields`; and the two scenario bodies from the spec
classify as stated. -/
theorem classify_policy :
    (∀ d b : String, (classify d b).1 = classifySpecStatus d b) ∧
    (∀ d b nd tg, notFoundPatterns.find?
        (fun p => containsSub (toLowerL b.data) p.1.data) = some (nd, tg) →
      classify d b = ("available", tg)) ∧
    (∀ d b : String,
      notFoundPatterns.find? (fun p => containsSub (toLowerL b.data) p.1.data) = none →
      reSearch .dn d.data b.data = false →
      reSearch .d d.data b.data = false →
      reSearch .dws d.data b.data = false →
      (containsSub (toLowerL b.data) "domain name:".data ||
        containsSub (toLowerL b.data) "registrar:".data) = true →
      classify d b = ("taken", "heuristic_record_fields")) ∧
    classify "example.com" "No match for \"EXAMPLE.COM\"." = ("available", "no_match_for") ∧
    (classify "example.com" "Domain Name: example.com\nRegistrar: X").1 = "taken" := by
  refine ⟨?_, ?_, ?_, by decide, by decide⟩
  · intro d b
    rcases hf : notFoundPatterns.find? (fun p => containsSub (toLowerL b.data) p.1.data)
        with _ | p
    · have hany : notFoundPatterns.any (fun p => containsSub (toLowerL b.data) p.1.data)
          = false := by
        rw [List.any_eq_false]
        intro x hx
        have := List.find?_eq_none.mp hf x hx
        simpa using this
      cases h1 : reSearch .dn d.data b.data <;>
        cases h2 : reSearch .d d.data b.data <;>
          cases h3 : reSearch .dws d.data b.data <;>
            cases h4 : containsSub (toLowerL b.data) "domain name:".data <;>
              cases h5 : containsSub (toLowerL b.data) "registrar:".data <;>
                simp [classify, classifySpecStatus, hf, hany, h1, h2, h3, h4, h5]
    · have hany : notFoundPatterns.any (fun p => containsSub (toLowerL b.data) p.1.data)
          = true := by
        rw [List.any_eq_true]
        have hmem := List.mem_of_find?_eq_some hf
        have hpred := @List.find?_some _
          (fun q => containsSub (toLowerL b.data) q.1.data) p notFoundPatterns hf
        exact ⟨p, hmem, hpred⟩
      simp [classify, classifySpecStatus, hf, hany]
  · intro d b nd tg hf
    simp [classify, hf]
  · intro d b hf h1 h2 h3 hh
    simp [classify, hf, h1, h2, h3, hh]

/-- Witness for C1: the needle conjunct applied at a concrete body. -/
theorem classify_policy_witness :
    classify "x.y" "status: free" = ("available", "status_free") :=
  classify_policy.2.1 "x.y" "status: free" "status: free" "status_free" (by decide)

end DotHunt.Whois

namespace DotHunt.Rdap

/-- Evidence record of the RDAP client (`internal/rdap`), with the Go
`error` modelled as an optional message. -/
structure Evidence where
  status : String
  confidence : String
  reason : String
  url : String
  httpStatus : Nat
  err : Option String
  deriving DecidableEq, Repr

/-- Go `strings.TrimRight(base, "/")`. -/
def trimRightSlashes (l : List Char) : List Char :=
  (l.reverse.dropWhile (fun c => c = '/')).reverse

/-- Upper-case hexadecimal digit. -/
def hexDigitUpper (n : Nat) : Char :=
  if n < 10 then Char.ofNat (48 + n) else Char.ofNat (55 + n)

/-- Characters that Go `url.PathEscape` leaves unescaped (mode
`encodePathSegment`): alphanumerics, `-._~`, and `$&+:=@`. -/
def pathSegSafe (c : Char) : Bool :=
  ('a' ≤ c && c ≤ 'z') || ('A' ≤ c && c ≤ 'Z') || ('0' ≤ c && c ≤ '9') ||
  c = '-' || c = '_' || c = '.' || c = '~' ||
  c = '$' || c = '&' || c = '+' || c = ':' || c = '=' || c = '@'

/-- Go `url.PathEscape` on the ASCII range: percent-encode every unsafe
byte with upper-case hex. -/
def pathEscape (l : List Char) : List Char :=
  l.foldr
    (fun c acc =>
      (if pathSegSafe c then [c]
       else ['%', hexDigitUpper (c.toNat / 16), hexDigitUpper (c.toNat % 16)]) ++ acc)
    []

/-- URL built by `Client.lookupOne` (part_002 lines 140-142):
`<base-sans-trailing-slashes>/domain/<escaped name>`. -/
def rdapURL (base domain : String) : String :=
  String.mk (trimRightSlashes base.data) ++ "/domain/" ++ String.mk (pathEscape domain.data)

/-- Embedding of `Client.lookupOne` (part_002 lines 140-184).  The HTTP
transport is a parameter mapping the request URL to either an error
message or a status code; 200 is taken/high, 404 is available/high, any
other code is unknown/low with reason and error `rdap http <code>`. -/
def lookupOne (resp : String → Except String Nat) (base domain : String) : Evidence :=
  let u := rdapURL base domain
  match resp u with
  | .error e => ⟨"unknown", "low", "network error", u, 0, some e⟩
  | .ok c =>
    if c = 200 then ⟨"taken", "high", "rdap 200", u, c, none⟩
    else if c = 404 then ⟨"available", "high", "rdap 404", u, c, none⟩
    else ⟨"unknown", "low", "rdap http " ++ toString c, u, c,
      some ("rdap http " ++ toString c)⟩

/-- Embedding of the candidate loop of `Client.LookupDomain` (part_002
lines 121-137): walk the bootstrap URLs in order, return the first
non-unknown evidence, remember the last non-nil error, and report it when
every candidate was unknown. -/
def lookupList (resp : String → Except String Nat) (domain : String) :
    List String → Option String → Evidence
  | [], lastErr => ⟨"unknown", "low", "rdap lookup failed", "", 0, lastErr⟩
  | base :: rest, lastErr =>
    let ev := lookupOne resp base domain
    if ev.status ≠ "unknown" then ev
    else
      lookupList resp domain rest
        (match ev.err with
         | some e => some e
         | none => lastErr)

/-- Embedding of `lastLabel` (part_002 lines 326-332): the text after the
last dot, or empty when there is no dot or it is final. -/
def lastLabel (domain : String) : String :=
  match lastIndexOfChar domain.data '.' with
  | none => ""
  | some i =>
    if i = domain.data.length - 1 then ""
    else String.mk (domain.data.drop (i + 1))

/-- Embedding of `Client.LookupDomain` (part_002 lines 91-138), with the
bootstrap acquisition modelled as an `Except` of a TLD-to-URLs map. -/
def LookupDomain (resp : String → Except String Nat)
    (getBS : Except String (String → List String)) (domain : String) : Evidence :=
  let tld := lastLabel domain
  if tld = "" then ⟨"unknown", "low", "invalid domain", "", 0, some "invalid domain"⟩
  else
    match getBS with
    | .error e => ⟨"unknown", "low", "rdap bootstrap unavailable", "", 0, some e⟩
    | .ok urlsFor =>
      if urlsFor tld = [] then ⟨"unknown", "low", "no rdap service for tld", "", 0, none⟩
      else lookupList resp domain (urlsFor tld) none

/-- The last-seen error over a candidate list, written from the spec: the
error of the last candidate that produced one (starting from `acc`). -/
def lastErrAccum (resp : String → Except String Nat) (domain : String) :
    List String → Option String → Option String
  | [], acc => acc
  | u :: rest, acc =>
    lastErrAccum resp domain rest
      (match (lookupOne resp u domain).err with
       | some e => some e
       | none => acc)

end DotHunt.Rdap

namespace DotHunt.Rdap

/-- C2.  Per-candidate policy and loop behaviour of the RDAP lookup: a
received status maps 200 to taken/high/`rdap 200`, 404 to
available/high/`rdap 404`, and anything else to unknown/low with
`rdap http <code>`; the candidate loop returns the first (in bootstrap
order) non-unknown evidence, and when all candidates are unknown it
returns the unknown evidence carrying the last-seen error; the spec's
stub scenario (404 for example.com) produces available/high/`rdap 404`. -/
theorem rdap_lookup_policy :
    (∀ (resp : String → Except String Nat) (base domain : String) (c : Nat),
      resp (rdapURL base domain) = .ok c →
      lookupOne resp base domain =
        if c = 200 then ⟨"taken", "high", "rdap 200", rdapURL base domain, c, none⟩
        else if c = 404 then ⟨"available", "high", "rdap 404", rdapURL base domain, c, none⟩
        else ⟨"unknown", "low", "rdap http " ++ toString c, rdapURL base domain, c,
          some ("rdap http " ++ toString c)⟩) ∧
    (∀ (resp : String → Except String Nat) (domain : String) (urls : List String)
        (lastErr : Option String),
      lookupList resp domain urls lastErr =
        match urls.find? (fun u => decide ((lookupOne resp u domain).status ≠ "unknown")) with
        | some u => lookupOne resp u domain
        | none => ⟨"unknown", "low", "rdap lookup failed", "", 0,
            lastErrAccum resp domain urls lastErr⟩) ∧
    LookupDomain (fun _ => .ok 404) (.ok (fun _ => ["https://rdap.example/"]))
        "example.com" =
      ⟨"available", "high", "rdap 404", "https://rdap.example/domain/example.com",
        404, none⟩ := by
  refine ⟨?_, ?_, by decide⟩
  · intro resp base domain c hresp
    unfold lookupOne
    dsimp only
    rw [hresp]
  · intro resp domain urls
    induction urls with
    | nil => intro lastErr; rfl
    | cons u rest ih =>
      intro lastErr
      cases hu : decide ((lookupOne resp u domain).status ≠ "unknown") with
      | true =>
        have hne : (lookupOne resp u domain).status ≠ "unknown" := of_decide_eq_true hu
        simp only [lookupList, List.find?_cons, hu, if_pos hne, cond_true]
      | false =>
        have heq : ¬ ((lookupOne resp u domain).status ≠ "unknown") :=
          of_decide_eq_false hu
        simp only [lookupList, List.find?_cons, hu, if_neg heq, cond_false]
        rw [ih]
        rfl

/-- Witness for C2: the per-status policy applied to a stub returning 403,
and to stubs returning 200 and 404. -/
theorem rdap_lookup_policy_witness :
    lookupOne (fun _ => .ok 403) "https://r.example" "a.b" =
      ⟨"unknown", "low", "rdap http 403", "https://r.example/domain/a.b", 403,
        some ("rdap http 403")⟩ := by
  have h := rdap_lookup_policy.1 (fun _ => .ok 403) "https://r.example" "a.b" 403 rfl
  simpa using h

end DotHunt.Rdap

namespace DotHunt.Whois

/-- Evidence record of the WHOIS client (`internal/whois`), with the Go
`error` modelled as an optional message. -/
structure Evidence where
  status : String
  confidence : String
  reason : String
  server : String
  pattern : String
  err : Option String
  deriving DecidableEq, Repr

end DotHunt.Whois

namespace DotHunt.Availability

/-- The `Result` record of `internal/availability` (part_003 lines 31-71).
The registrar-enrichment group is omitted: `Checker.checkOne`, the only
code under inspection here, never reads or writes those fields. -/
structure AvResult where
  input : String
  phrase : String
  score : Int
  domain : String
  label : String
  tld : String
  status : String
  registered : Option Bool
  method : String
  confidence : String
  detail : String
  error : String
  checkedAt : String
  durationMs : Int
  rdapStatus : String
  rdapReason : String
  rdapError : String
  rdapURL : String
  rdapCode : Nat
  whoisStatus : String
  whoisReason : String
  whoisError : String
  whoisServer : String
  whoisPattern : String
  deriving DecidableEq, Repr

/-- The Go zero value of `Result`, as produced by `make([]Result, n)`. -/
def emptyResult : AvResult :=
  ⟨"", "", 0, "", "", "", "", none, "", "", "", "", "", 0, "", "", "", "", 0,
   "", "", "", "", ""⟩

instance : Inhabited AvResult := ⟨emptyResult⟩

/-- Checker options: the RDAP and WHOIS clients are abstracted as optional
evidence functions of the normalized name (`nil` client = `none`). -/
structure CheckerOpts where
  rdap : Option (String → Rdap.Evidence)
  whois : Option (String → Whois.Evidence)
  noWHOIS : Bool

/-- Embedding of `splitDomain` (part_003 lines 262-268). -/
def splitDomain (d : String) : String × String :=
  match lastIndexOfChar d.data '.' with
  | none => ("", "")
  | some i =>
    if i = d.data.length - 1 then ("", "")
    else (String.mk (d.data.take i), String.mk (d.data.drop (i + 1)))

/-- The RDAP block of `checkOne` (part_003 lines 165-203): record the
diagnostics, surface the error only when none is present yet, and return
terminally on available/taken.  The Bool is true when the block returned. -/
def rdapStage (r : AvResult) (ev : Rdap.Evidence) (stamp : String) (dur : Int) :
    AvResult × Bool :=
  let r1 := { r with
    method := "rdap"
    rdapStatus := ev.status
    rdapReason := ev.reason
    rdapURL := ev.url
    rdapCode := ev.httpStatus }
  let r2 :=
    match ev.err with
    | some e => { r1 with
        rdapError := e
        error := if r1.error = "" then e else r1.error }
    | none => r1
  if ev.status = "available" then
    ({ r2 with
       status := "available"
       registered := some false
       method := "rdap"
       confidence := ev.confidence
       detail := ev.reason
       error := ""
       checkedAt := stamp
       durationMs := dur }, true)
  else if ev.status = "taken" then
    ({ r2 with
       status := "taken"
       registered := some true
       method := "rdap"
       confidence := ev.confidence
       detail := ev.reason
       error := ""
       checkedAt := stamp
       durationMs := dur }, true)
  else
    (if r2.detail = "" ∧ ev.reason ≠ "" then { r2 with detail := ev.reason } else r2, false)

/-- The WHOIS block of `checkOne` (part_003 lines 205-241): like the RDAP
block but the error is overwritten unconditionally. -/
def whoisStage (r : AvResult) (ev : Whois.Evidence) (stamp : String) (dur : Int) :
    AvResult × Bool :=
  let r1 := { r with
    method := "whois"
    whoisStatus := ev.status
    whoisReason := ev.reason
    whoisServer := ev.server
    whoisPattern := ev.pattern }
  let r2 :=
    match ev.err with
    | some e => { r1 with
        whoisError := e
        error := e }
    | none => r1
  if ev.status = "available" then
    ({ r2 with
       status := "available"
       registered := some false
       method := "whois"
       confidence := ev.confidence
       detail := ev.reason
       error := ""
       checkedAt := stamp
       durationMs := dur }, true)
  else if ev.status = "taken" then
    ({ r2 with
       status := "taken"
       registered := some true
       method := "whois"
       confidence := ev.confidence
       detail := ev.reason
       error := ""
       checkedAt := stamp
       durationMs := dur }, true)
  else
    (if r2.detail = "" ∧ ev.reason ≠ "" then { r2 with detail := ev.reason } else r2, false)

/-- The final detail assembly of `checkOne` (part_003 lines 243-255). -/
def finishDetail (r : AvResult) : AvResult :=
  if r.detail = "" then
    { r with detail :=
        if r.rdapReason ≠ "" ∧ r.whoisReason ≠ "" then
          "rdap: " ++ r.rdapReason ++ "; whois: " ++ r.whoisReason
        else if r.rdapReason ≠ "" then "rdap: " ++ r.rdapReason
        else if r.whoisReason ≠ "" then "whois: " ++ r.whoisReason
        else "lookup unavailable" }
  else r

/-- The freshly initialized `Result` of `checkOne` (part_003 lines
142-147): trimmed input, unknown/none/low. -/
def initialResult (input : String) : AvResult :=
  { emptyResult with
    input := String.mk (trimSpace input.data)
    status := "unknown"
    method := "none"
    confidence := "low" }

/-- The normalization-failure exit of `checkOne` (part_003 lines 149-157). -/
def normFail (input e stamp : String) (dur : Int) : AvResult :=
  { initialResult input with
    domain := String.mk (trimSpace input.data)
    error := e
    detail := "invalid input"
    checkedAt := stamp
    durationMs := dur }

/-- The `Result` right after a successful normalization (part_003 lines
159-163): domain, label and tld filled in, input cleared when it equals
the normalized name. -/
def afterNorm (input ascii : String) : AvResult :=
  let r1 :=
    { initialResult input with
      domain := ascii
      label := (splitDomain ascii).1
      tld := (splitDomain ascii).2 }
  if r1.input = ascii then { r1 with input := "" } else r1

/-- The WHOIS block and final assembly of `checkOne` (part_003 lines
205-259). -/
def whoisTail (opts : CheckerOpts) (r2 : AvResult) (ascii stamp : String)
    (dur : Int) : AvResult :=
  let s3 :=
    if opts.noWHOIS then (r2, false)
    else
      match opts.whois with
      | some f => whoisStage r2 (f ascii) stamp dur
      | none => (r2, false)
  if s3.2 then s3.1
  else
    { finishDetail s3.1 with
      checkedAt := stamp
      durationMs := dur }

/-- The RDAP block of `checkOne` followed by the WHOIS tail (part_003
lines 165-259). -/
def checkAfterNorm (opts : CheckerOpts) (r1b : AvResult) (ascii stamp : String)
    (dur : Int) : AvResult :=
  let s2 :=
    match opts.rdap with
    | some f => rdapStage r1b (f ascii) stamp dur
    | none => (r1b, false)
  if s2.2 then s2.1
  else whoisTail opts s2.1 ascii stamp dur

/-- Embedding of `Checker.checkOne` (part_003 lines 140-260).  The exit
timestamp and the measured duration are environment inputs: `stamp` stands
for `time.Now().UTC().Format(time.RFC3339Nano)` at the exit point and
`dur` for `time.Since(start).Milliseconds()`. -/
def checkOne (env : GoDomain.NormEnv) (opts : CheckerOpts) (input : String)
    (stamp : String) (dur : Int) : AvResult :=
  match GoDomain.Normalize env input with
  | .error e => normFail input e stamp dur
  | .ok ascii => checkAfterNorm opts (afterNorm input ascii) ascii stamp dur

end DotHunt.Availability

namespace DotHunt.Availability

/-- Consume exactly `n` decimal digits. -/
def consumeDigits : Nat → List Char → Option (List Char)
  | 0, l => some l
  | n + 1, c :: r => if isDigitChar c then consumeDigits n r else none
  | _ + 1, [] => none

/-- Consume one fixed character. -/
def consumeChar (x : Char) : List Char → Option (List Char)
  | c :: r => if c = x then some r else none
  | [] => none

/-- Consume an optional fractional-second part: a dot followed by one to
nine digits (the shape emitted by Go `time.RFC3339Nano`). -/
def consumeFrac : List Char → Option (List Char)
  | '.' :: r =>
    if 1 ≤ (r.takeWhile isDigitChar).length ∧ (r.takeWhile isDigitChar).length ≤ 9 then
      some (r.drop (r.takeWhile isDigitChar).length)
    else none
  | l => some l

/-- Shape check for an RFC3339 nanosecond UTC timestamp, the format of Go
`time.Time.UTC().Format(time.RFC3339Nano)`:
`YYYY-MM-DDTHH:MM:SS(.1-9 digits)?Z`. -/
def isRFC3339NanoUTC (s : String) : Bool :=
  match (do
    let l ← consumeDigits 4 s.data
    let l ← consumeChar '-' l
    let l ← consumeDigits 2 l
    let l ← consumeChar '-' l
    let l ← consumeDigits 2 l
    let l ← consumeChar 'T' l
    let l ← consumeDigits 2 l
    let l ← consumeChar ':' l
    let l ← consumeDigits 2 l
    let l ← consumeChar ':' l
    let l ← consumeDigits 2 l
    let l ← consumeFrac l
    consumeChar 'Z' l : Option (List Char)) with
  | some [] => true
  | _ => false

lemma isRFC3339NanoUTC_ne_empty {s : String} (h : isRFC3339NanoUTC s = true) :
    s ≠ "" := by
  intro hs
  subst hs
  exact Bool.noConfusion h

lemma rdapStage_true {r : AvResult} {ev : Rdap.Evidence} {stamp : String} {dur : Int}
    (h : (rdapStage r ev stamp dur).2 = true) :
    (rdapStage r ev stamp dur).1.checkedAt = stamp ∧
    (rdapStage r ev stamp dur).1.durationMs = dur ∧
    (((rdapStage r ev stamp dur).1.status = "available" ∧
        (rdapStage r ev stamp dur).1.registered = some false) ∨
      ((rdapStage r ev stamp dur).1.status = "taken" ∧
        (rdapStage r ev stamp dur).1.registered = some true)) := by
  unfold rdapStage at h ⊢
  by_cases h1 : ev.status = "available"
  · cases herr : ev.err <;> simp [h1, herr]
  by_cases h2 : ev.status = "taken"
  · cases herr : ev.err <;> simp [h1, h2, herr]
  simp [h1, h2] at h

lemma rdapStage_false {r : AvResult} {ev : Rdap.Evidence} {stamp : String} {dur : Int}
    (h : (rdapStage r ev stamp dur).2 = false) :
    (rdapStage r ev stamp dur).1.status = r.status ∧
    (rdapStage r ev stamp dur).1.registered = r.registered := by
  unfold rdapStage at h ⊢
  by_cases h1 : ev.status = "available"
  · simp [h1] at h
  by_cases h2 : ev.status = "taken"
  · simp [h1, h2] at h
  simp only [if_neg h1, if_neg h2]
  cases herr : ev.err <;> simp only [herr] <;> split <;> simp

lemma whoisStage_true {r : AvResult} {ev : Whois.Evidence} {stamp : String} {dur : Int}
    (h : (whoisStage r ev stamp dur).2 = true) :
    (whoisStage r ev stamp dur).1.checkedAt = stamp ∧
    (whoisStage r ev stamp dur).1.durationMs = dur ∧
    (((whoisStage r ev stamp dur).1.status = "available" ∧
        (whoisStage r ev stamp dur).1.registered = some false) ∨
      ((whoisStage r ev stamp dur).1.status = "taken" ∧
        (whoisStage r ev stamp dur).1.registered = some true)) := by
  unfold whoisStage at h ⊢
  by_cases h1 : ev.status = "available"
  · cases herr : ev.err <;> simp [h1, herr]
  by_cases h2 : ev.status = "taken"
  · cases herr : ev.err <;> simp [h1, h2, herr]
  simp [h1, h2] at h

lemma whoisStage_false {r : AvResult} {ev : Whois.Evidence} {stamp : String} {dur : Int}
    (h : (whoisStage r ev stamp dur).2 = false) :
    (whoisStage r ev stamp dur).1.status = r.status ∧
    (whoisStage r ev stamp dur).1.registered = r.registered := by
  unfold whoisStage at h ⊢
  by_cases h1 : ev.status = "available"
  · simp [h1] at h
  by_cases h2 : ev.status = "taken"
  · simp [h1, h2] at h
  simp only [if_neg h1, if_neg h2]
  cases herr : ev.err <;> simp only [herr] <;> split <;> simp

lemma finishDetail_preserves (r : AvResult) :
    (finishDetail r).status = r.status ∧ (finishDetail r).registered = r.registered := by
  unfold finishDetail
  split <;> simp

end DotHunt.Availability

namespace DotHunt.Availability

/-- The three legal (status, registered) shapes plus always-set timing
fields. -/
def ResultCore (stamp : String) (dur : Int) (r : AvResult) : Prop :=
  r.checkedAt = stamp ∧ r.durationMs = dur ∧
  ((r.status = "unknown" ∧ r.registered = none) ∨
   (r.status = "available" ∧ r.registered = some false) ∨
   (r.status = "taken" ∧ r.registered = some true))

lemma afterNorm_core (input ascii : String) :
    (afterNorm input ascii).status = "unknown" ∧
    (afterNorm input ascii).registered = none := by
  unfold afterNorm initialResult
  dsimp only
  constructor <;> (split <;> simp [emptyResult])

lemma whoisTail_core (opts : CheckerOpts) (r2 : AvResult) (ascii stamp : String)
    (dur : Int) (hst : r2.status = "unknown") (hreg : r2.registered = none) :
    ResultCore stamp dur (whoisTail opts r2 ascii stamp dur) := by
  unfold whoisTail ResultCore
  by_cases hnw : opts.noWHOIS
  · have hp := finishDetail_preserves r2
    simp [hnw, hp.1, hp.2, hst, hreg]
  · cases hw : opts.whois with
    | none =>
      have hp := finishDetail_preserves r2
      simp [hnw, hw, hp.1, hp.2, hst, hreg]
    | some f =>
      cases hd : (whoisStage r2 (f ascii) stamp dur).2 with
      | false =>
        have hf := whoisStage_false hd
        have hp := finishDetail_preserves (whoisStage r2 (f ascii) stamp dur).1
        simp [hnw, hw, hd, hp.1, hp.2, hf.1, hf.2, hst, hreg]
      | true =>
        have ht := whoisStage_true hd
        simp only [hnw, hw, hd, if_true, if_false, ite_true, ite_false,
          Bool.false_eq_true]
        exact ⟨ht.1, ht.2.1, Or.inr ht.2.2⟩

lemma checkAfterNorm_core (opts : CheckerOpts) (r1b : AvResult)
    (ascii stamp : String) (dur : Int)
    (hst : r1b.status = "unknown") (hreg : r1b.registered = none) :
    ResultCore stamp dur (checkAfterNorm opts r1b ascii stamp dur) := by
  unfold checkAfterNorm
  cases hrd : opts.rdap with
  | none =>
    simp only [hrd]
    exact whoisTail_core opts r1b ascii stamp dur hst hreg
  | some f =>
    simp only [hrd]
    cases hd : (rdapStage r1b (f ascii) stamp dur).2 with
    | false =>
      have hf := rdapStage_false hd
      simp only [hd, if_false, Bool.false_eq_true]
      exact whoisTail_core opts _ ascii stamp dur (hf.1.trans hst) (hf.2.trans hreg)
    | true =>
      have ht := rdapStage_true hd
      simp only [hd, if_true]
      exact ⟨ht.1, ht.2.1, Or.inr ht.2.2⟩

lemma checkOne_core (env : GoDomain.NormEnv) (opts : CheckerOpts)
    (input stamp : String) (dur : Int) :
    ResultCore stamp dur (checkOne env opts input stamp dur) := by
  unfold checkOne
  cases hN : GoDomain.Normalize env input with
  | error e =>
    unfold ResultCore normFail initialResult
    simp [emptyResult]
  | ok ascii =>
    have ha := afterNorm_core input ascii
    exact checkAfterNorm_core opts _ ascii stamp dur ha.1 ha.2

/-- C3.  Every `Result` built by `Checker.checkOne` carries the exit
timestamp and duration, so when the clock yields an RFC3339 nanosecond UTC
stamp and a non-negative duration the record does too; the status is one
of available/taken/unknown; and `registered` is `false` for available,
`true` for taken, and absent for unknown. -/
theorem checkOne_result_invariants (env : GoDomain.NormEnv) (opts : CheckerOpts)
    (input stamp : String) (dur : Int)
    (hstamp : isRFC3339NanoUTC stamp = true) (hdur : 0 ≤ dur) :
    isRFC3339NanoUTC (checkOne env opts input stamp dur).checkedAt = true ∧
    (checkOne env opts input stamp dur).checkedAt ≠ "" ∧
    0 ≤ (checkOne env opts input stamp dur).durationMs ∧
    ((checkOne env opts input stamp dur).status = "available" ∨
     (checkOne env opts input stamp dur).status = "taken" ∨
     (checkOne env opts input stamp dur).status = "unknown") ∧
    ((checkOne env opts input stamp dur).status = "available" →
      (checkOne env opts input stamp dur).registered = some false) ∧
    ((checkOne env opts input stamp dur).status = "taken" →
      (checkOne env opts input stamp dur).registered = some true) ∧
    ((checkOne env opts input stamp dur).status = "unknown" →
      (checkOne env opts input stamp dur).registered = none) := by
  obtain ⟨hat, hdm, hcases⟩ := checkOne_core env opts input stamp dur
  rw [hat, hdm]
  refine ⟨hstamp, isRFC3339NanoUTC_ne_empty hstamp, hdur, ?_, ?_, ?_, ?_⟩
  · rcases hcases with ⟨h, _⟩ | ⟨h, _⟩ | ⟨h, _⟩ <;> simp [h]
  · intro h
    rcases hcases with ⟨h1, h2⟩ | ⟨h1, h2⟩ | ⟨h1, h2⟩ <;> first
      | exact h2
      | (rw [h] at h1; exact absurd h1.symm (by decide))
  · intro h
    rcases hcases with ⟨h1, h2⟩ | ⟨h1, h2⟩ | ⟨h1, h2⟩ <;> first
      | exact h2
      | (rw [h] at h1; exact absurd h1.symm (by decide))
  · intro h
    rcases hcases with ⟨h1, h2⟩ | ⟨h1, h2⟩ | ⟨h1, h2⟩ <;> first
      | exact h2
      | (rw [h] at h1; exact absurd h1.symm (by decide))

/-- Witness for C3: a concrete run with no clients, a concrete timestamp
and a zero duration. -/
theorem checkOne_result_invariants_witness :
    0 ≤ (checkOne GoDomain.asciiIdEnv ⟨none, none, true⟩ "example.com"
        "2026-01-02T03:04:05.123456789Z" 0).durationMs :=
  (checkOne_result_invariants GoDomain.asciiIdEnv ⟨none, none, true⟩ "example.com"
    "2026-01-02T03:04:05.123456789Z" 0 (by decide) (by decide)).2.2.1

end DotHunt.Availability

namespace DotHunt.Availability

/-- The collector of `Checker.CheckDomains` (part_003 lines 133-137): an
output slice of `n` zero Results, written at position `idx` as each
`(idx, Result)` pair arrives, in arrival order. -/
def collectResults (n : Nat) (results : List (Nat × AvResult)) : List AvResult :=
  results.foldl (fun acc p => acc.set p.1 p.2) (List.replicate n emptyResult)

/-- Model of `Checker.CheckDomains` (part_003 lines 94-138): one job per
input index, each worker computing `checkOne` on its input; `order` is the
order in which worker results reach the collector. -/
def checkDomainsModel (env : GoDomain.NormEnv) (opts : CheckerOpts)
    (inputs : List String) (stamp : String) (dur : Int) (order : List Nat) :
    List AvResult :=
  collectResults inputs.length
    (order.map (fun i => (i, checkOne env opts (inputs.getD i "") stamp dur)))

lemma foldl_set_length (l : List (Nat × AvResult)) (acc : List AvResult) :
    (l.foldl (fun a p => a.set p.1 p.2) acc).length = acc.length := by
  induction l generalizing acc with
  | nil => rfl
  | cons p rest ih =>
    simp only [List.foldl_cons]
    rw [ih]
    exact List.length_set acc p.1 p.2

lemma foldl_set_getD_notin (l : List (Nat × AvResult)) (acc : List AvResult)
    (i : Nat) (hnot : ∀ p ∈ l, p.1 ≠ i) :
    (l.foldl (fun a p => a.set p.1 p.2) acc).getD i emptyResult =
      acc.getD i emptyResult := by
  induction l generalizing acc with
  | nil => rfl
  | cons p rest ih =>
    simp only [List.foldl_cons]
    rw [ih (acc.set p.1 p.2) (fun q hq => hnot q (List.mem_cons_of_mem p hq))]
    have hne : p.1 ≠ i := hnot p (List.mem_cons_self p rest)
    simp [List.getD_eq_getElem?_getD, List.getElem?_set_ne hne]

lemma foldl_set_getD (l : List (Nat × AvResult)) (acc : List AvResult)
    (i : Nat) (v : AvResult) (hi : i < acc.length)
    (hin : (i, v) ∈ l) (huniq : ∀ p ∈ l, p.1 = i → p.2 = v) :
    (l.foldl (fun a p => a.set p.1 p.2) acc).getD i emptyResult = v := by
  induction l generalizing acc with
  | nil => cases hin
  | cons p rest ih =>
    simp only [List.foldl_cons]
    by_cases hrest : ∀ q ∈ rest, q.1 ≠ i
    · have hp : p = (i, v) := by
        rcases List.mem_cons.mp hin with h | h
        · exact h.symm
        · exact absurd rfl (hrest _ h)
      subst hp
      rw [foldl_set_getD_notin rest _ i hrest]
      simp [List.getD_eq_getElem?_getD, List.getElem?_set_self, hi]
    · push_neg at hrest
      obtain ⟨q, hq, hq1⟩ := hrest
      have hq2 : q.2 = v := huniq q (List.mem_cons_of_mem p hq) hq1
      have hqv : (i, v) ∈ rest := by
        have : q = (i, v) := by
          cases q
          simp_all
        exact this ▸ hq
      exact ih _ (by rw [List.length_set]; exact hi) hqv
        (fun r hr hr1 => huniq r (List.mem_cons_of_mem p hr) hr1)

/-- C4.  `CheckDomains` returns one Result per input, positionally: for
every arrival order of worker results (any permutation of the input
indices), the collected output has the length of the input list and its
`i`-th entry is `checkOne` of the `i`-th input. -/
theorem checkDomains_order_independent (env : GoDomain.NormEnv)
    (opts : CheckerOpts) (inputs : List String) (stamp : String) (dur : Int)
    (order : List Nat) (hperm : order.Perm (List.range inputs.length)) :
    (checkDomainsModel env opts inputs stamp dur order).length = inputs.length ∧
    ∀ i, i < inputs.length →
      (checkDomainsModel env opts inputs stamp dur order).getD i emptyResult =
        checkOne env opts (inputs.getD i "") stamp dur := by
  constructor
  · unfold checkDomainsModel collectResults
    rw [foldl_set_length]
    exact List.length_replicate _ _
  · intro i hi
    unfold checkDomainsModel collectResults
    apply foldl_set_getD
    · rw [List.length_replicate]
      exact hi
    · refine List.mem_map.mpr ⟨i, ?_, rfl⟩
      exact hperm.mem_iff.mpr (List.mem_range.mpr hi)
    · intro p hp hp1
      obtain ⟨j, _, hj⟩ := List.mem_map.mp hp
      rw [← hj] at hp1 ⊢
      simp only at hp1
      rw [hp1]

/-- Witness for C4: two inputs collected in reversed completion order still
land at their own indices. -/
theorem checkDomains_order_independent_witness :
    (checkDomainsModel GoDomain.asciiIdEnv ⟨none, none, true⟩ ["a.b", "zz"]
        "2026-01-02T03:04:05Z" 0 [1, 0]).getD 0 emptyResult =
      checkOne GoDomain.asciiIdEnv ⟨none, none, true⟩ "a.b"
        "2026-01-02T03:04:05Z" 0 :=
  (checkDomains_order_independent GoDomain.asciiIdEnv ⟨none, none, true⟩
    ["a.b", "zz"] "2026-01-02T03:04:05Z" 0 [1, 0] (by decide)).2 0 (by decide)

end DotHunt.Availability

namespace DotHunt.Availability

lemma rdapStage_input (r : AvResult) (ev : Rdap.Evidence) (stamp : String)
    (dur : Int) : (rdapStage r ev stamp dur).1.input = r.input := by
  unfold rdapStage
  by_cases h1 : ev.status = "available" <;> by_cases h2 : ev.status = "taken" <;>
    cases herr : ev.err <;> simp [h1, h2, herr] <;> split <;> simp

lemma whoisStage_input (r : AvResult) (ev : Whois.Evidence) (stamp : String)
    (dur : Int) : (whoisStage r ev stamp dur).1.input = r.input := by
  unfold whoisStage
  by_cases h1 : ev.status = "available" <;> by_cases h2 : ev.status = "taken" <;>
    cases herr : ev.err <;> simp [h1, h2, herr] <;> split <;> simp

lemma finishDetail_input (r : AvResult) : (finishDetail r).input = r.input := by
  unfold finishDetail
  split <;> simp

lemma whoisTail_input (opts : CheckerOpts) (r2 : AvResult) (ascii stamp : String)
    (dur : Int) : (whoisTail opts r2 ascii stamp dur).input = r2.input := by
  unfold whoisTail
  by_cases hnw : opts.noWHOIS
  · simp [hnw, finishDetail_input]
  · cases hw : opts.whois with
    | none => simp [hnw, hw, finishDetail_input]
    | some f =>
      cases hd : (whoisStage r2 (f ascii) stamp dur).2 with
      | false => simp [hnw, hw, hd, finishDetail_input, whoisStage_input]
      | true => simp [hnw, hw, hd, whoisStage_input]

lemma checkAfterNorm_input (opts : CheckerOpts) (r1b : AvResult)
    (ascii stamp : String) (dur : Int) :
    (checkAfterNorm opts r1b ascii stamp dur).input = r1b.input := by
  unfold checkAfterNorm
  cases hrd : opts.rdap with
  | none => simp [hrd, whoisTail_input]
  | some f =>
    cases hd : (rdapStage r1b (f ascii) stamp dur).2 with
    | false => simp [hrd, hd, whoisTail_input, rdapStage_input]
    | true => simp [hrd, hd, rdapStage_input]

/-- C9 counterexample.  For the raw input `"example.com"` (whose trimmed
form equals its normalized form) the emitted Result's `input` field is
empty, not the raw input: `checkOne` clears it when it equals the
normalized domain. -/
theorem checkOne_input_counterexample :
    (checkOne GoDomain.asciiIdEnv ⟨none, none, true⟩ "example.com"
        "2026-01-02T03:04:05Z" 0).input = "" ∧
    ("example.com" : String) ≠ "" := by
  exact ⟨by decide, by decide⟩

/-- C9 amended.  The Result's `input` field holds the whitespace-trimmed
raw input, except that it is cleared to the empty string when normalization
succeeds and the trimmed input equals the normalized domain. -/
theorem checkOne_input_amended (env : GoDomain.NormEnv) (opts : CheckerOpts)
    (input stamp : String) (dur : Int) :
    (checkOne env opts input stamp dur).input =
      match GoDomain.Normalize env input with
      | .ok n =>
        if String.mk (trimSpace input.data) = n then ""
        else String.mk (trimSpace input.data)
      | .error _ => String.mk (trimSpace input.data) := by
  unfold checkOne
  cases hN : GoDomain.Normalize env input with
  | error e => simp [normFail, initialResult, emptyResult]
  | ok ascii =>
    rw [checkAfterNorm_input]
    unfold afterNorm initialResult
    dsimp only
    split <;> simp_all

/-- Witness for the amended C9 statement at an input with surrounding
whitespace, where the trimmed input differs from the normalized domain. -/
theorem checkOne_input_amended_witness :
    (checkOne GoDomain.asciiIdEnv ⟨none, none, true⟩ " Example.COM "
        "2026-01-02T03:04:05Z" 0).input = "Example.COM" := by
  have h := checkOne_input_amended GoDomain.asciiIdEnv ⟨none, none, true⟩
    " Example.COM " "2026-01-02T03:04:05Z" 0
  rw [h]
  decide

end DotHunt.Availability

namespace DotHunt.Whois

/-- Options of the WHOIS client (part_001 lines 16-25); durations in
milliseconds. -/
structure WOptions where
  timeoutMs : Int
  verbose : Bool
  maxConcurrentPerServer : Int
  minDelayPerServer : Int
  retries : Int
  backoff : Int
  deriving DecidableEq, Repr

/-- The defaulting performed by `NewClient` (part_001 lines 50-73), written
field-wise: each of the sequential Go default assignments touches a
distinct field (the two `Retries` checks combine into one conditional). -/
def newClientOpts (o : WOptions) : WOptions :=
  { timeoutMs := if o.timeoutMs = 0 then 8000 else o.timeoutMs
    verbose := o.verbose
    maxConcurrentPerServer :=
      if o.maxConcurrentPerServer ≤ 0 then 1 else o.maxConcurrentPerServer
    minDelayPerServer := if o.minDelayPerServer ≤ 0 then 250 else o.minDelayPerServer
    retries := if o.retries = 0 then 2 else if o.retries < 0 then 0 else o.retries
    backoff := if o.backoff ≤ 0 then 250 else o.backoff }

/-- One pacing reservation of `queryOnce` (part_001 lines 217-224):
`scheduled` is the later of now and the per-server `next` time, and `next`
advances to `scheduled + minDelay`. -/
def reserveSlot (now next minDelay : Int) : Int × Int :=
  let scheduled := if now < next then next else now
  (scheduled, scheduled + minDelay)

/-- The pacing state over a sequence of calls: for each arrival time the
(scheduled start, next-start-after) pair. -/
def paceRun (minDelay next0 : Int) : List Int → List (Int × Int)
  | [] => []
  | now :: rest =>
    let s := reserveSlot now next0 minDelay
    s :: paceRun minDelay s.2 rest

lemma paceRun_snd_eq (md : Int) (nows : List Int) :
    ∀ (next0 : Int) (k : Nat), k < (paceRun md next0 nows).length →
      ((paceRun md next0 nows).getD k (0, 0)).2 =
        ((paceRun md next0 nows).getD k (0, 0)).1 + md := by
  induction nows with
  | nil =>
    intro next0 k hk
    simp [paceRun] at hk
  | cons now rest ih =>
    intro next0 k hk
    cases k with
    | zero => simp [paceRun, reserveSlot]
    | succ k =>
      simp only [paceRun, List.getD_cons_succ]
      apply ih
      simpa [paceRun] using hk

lemma paceRun_step (md : Int) (nows : List Int) :
    ∀ (next0 : Int) (k : Nat), k + 1 < (paceRun md next0 nows).length →
      ((paceRun md next0 nows).getD k (0, 0)).2 ≤
        ((paceRun md next0 nows).getD (k + 1) (0, 0)).1 := by
  induction nows with
  | nil =>
    intro next0 k hk
    simp [paceRun] at hk
  | cons now rest ih =>
    intro next0 k hk
    cases k with
    | zero =>
      cases rest with
      | nil => simp [paceRun] at hk
      | cons now2 rest2 =>
        simp only [paceRun, List.getD_cons_succ, List.getD_cons_zero]
        simp only [reserveSlot]
        split <;> split <;> omega
    | succ k =>
      simp only [paceRun, List.getD_cons_succ]
      apply ih
      simpa [paceRun] using hk

/-- C7.  WHOIS per-server pacing: after `NewClient` the minimum delay is
strictly positive; each reservation computes `scheduled = max(now, next)`
and advances `next` to `scheduled + min_delay`; and over any call sequence
the scheduled starts grow by at least `min_delay` per call while the
`next` timestamps are non-decreasing. -/
theorem whois_pacing_invariant (o : WOptions) :
    0 < (newClientOpts o).minDelayPerServer ∧
    (∀ now next md : Int, reserveSlot now next md = (max now next, max now next + md)) ∧
    (∀ (md next0 : Int) (nows : List Int), 0 < md →
      ∀ k : Nat, k + 1 < (paceRun md next0 nows).length →
        ((paceRun md next0 nows).getD k (0, 0)).1 + md ≤
          ((paceRun md next0 nows).getD (k + 1) (0, 0)).1 ∧
        ((paceRun md next0 nows).getD k (0, 0)).2 ≤
          ((paceRun md next0 nows).getD (k + 1) (0, 0)).2) := by
  refine ⟨?_, ?_, ?_⟩
  · unfold newClientOpts
    dsimp only
    split <;> omega
  · intro now next md
    unfold reserveSlot
    rcases lt_trichotomy now next with h | h | h <;>
      simp [h, max_def] <;> omega
  · intro md next0 nows hmd k hk
    have h1 := paceRun_snd_eq md nows next0 k (by omega)
    have h2 := paceRun_snd_eq md nows next0 (k + 1) hk
    have h3 := paceRun_step md nows next0 k hk
    constructor <;> omega

/-- Witness for C7: three calls at concrete arrival times, first gap. -/
theorem whois_pacing_invariant_witness :
    ((paceRun 250 0 [0, 10, 600]).getD 0 (0, 0)).1 + 250 ≤
      ((paceRun 250 0 [0, 10, 600]).getD 1 (0, 0)).1 :=
  ((whois_pacing_invariant ⟨0, false, 0, 0, 0, 0⟩).2.2 250 0 [0, 10, 600]
    (by decide) 0 (by decide)).1

end DotHunt.Whois

namespace DotHunt.Whois

/-- Lines as produced by `bufio.Scanner` with the default `ScanLines`
split: pieces between newlines, trailing `\r` stripped, and no empty final
token after a trailing newline. -/
def scanLines (l : List Char) : List (List Char) :=
  let parts := (GoDomain.splitOnChar '\n' l).map
    (fun line => if line.getLast? = some '\r' then line.dropLast else line)
  match l.getLast? with
  | some '\n' => parts.dropLast
  | _ => if l = [] then [] else parts

/-- Go `strings.Fields`: maximal runs of non-whitespace. -/
def splitFieldsAux : List Char → List Char → List (List Char)
  | [], cur => if cur = [] then [] else [cur.reverse]
  | c :: rest, cur =>
    if isGoSpace c then
      if cur = [] then splitFieldsAux rest []
      else cur.reverse :: splitFieldsAux rest []
    else splitFieldsAux rest (c :: cur)

/-- Go `strings.Fields`, on character lists. -/
def splitFields (l : List Char) : List (List Char) :=
  splitFieldsAux l []

/-- Outcome of the `whois:` scan of `Client.serverForTLD` (part_001 lines
137-158).  `panicked` marks the out-of-bounds index `Fields(server)[0]` on
an empty `server`, which in Go is a runtime panic. -/
inductive ScanOutcome where
  | found (s : String)
  | panicked
  | notFound
  deriving DecidableEq, Repr

/-- The line loop of `Client.serverForTLD`: skip blank lines, and on the
first line whose lower-cased trimmed text starts with `whois:`, trim the
remainder and index the first whitespace-delimited field. -/
def scanGo : List (List Char) → ScanOutcome
  | [] => .notFound
  | line :: rest =>
    let t := trimSpace line
    if t = [] then scanGo rest
    else if startsWithL (toLowerL t) "whois:".data then
      match splitFields (trimSpace (t.drop 6)) with
      | [] => .panicked
      | tok :: _ =>
        if tok ≠ [] then .found (String.mk tok) else scanGo rest
    else scanGo rest

/-- Embedding of the response scan of `Client.serverForTLD`. -/
def serverForTLDScan (body : String) : ScanOutcome :=
  scanGo (scanLines body.data)

/-- C10.  The scan is not total: a response whose first `whois:` line has
an empty value makes `strings.Fields(server)[0]` index an empty slice — a
runtime panic — while a well-formed `whois:` line yields its first token. -/
theorem whois_server_scan_panics :
    serverForTLDScan "whois:\n" = .panicked ∧
    serverForTLDScan "refer: x\nwhois: whois.nic.io\n" = .found "whois.nic.io" := by
  exact ⟨by decide, by decide⟩

end DotHunt.Whois

namespace DotHunt.Generate

/-- Options of the label generator (`internal/generate/generate.go` lines
9-15); `keepHyphen` is carried but unused by `Labels`, as in the source. -/
structure GenOptions where
  maxLabels : Int
  replaceKI : Bool
  reverse2 : Bool
  keepHyphen : Bool
  minTokenLen : Int
  deriving DecidableEq, Repr

/-- The defaulting performed by `New` (generate.go lines 26-34). -/
def genNew (o : GenOptions) : GenOptions :=
  { o with
    maxLabels := if o.maxLabels ≤ 0 then 50 else o.maxLabels
    minTokenLen := if o.minTokenLen ≤ 0 then 2 else o.minTokenLen }

/-- A scored label candidate (generate.go lines 17-20). -/
structure Candidate where
  label : String
  score : Int
  deriving DecidableEq, Repr

/-- Lower-case ASCII letter or digit: the characters kept by `tokenize`
(everything else, including non-ASCII letters and digits, flushes the
current token and is dropped). -/
def isLowerAlnum (c : Char) : Bool :=
  ('a' ≤ c && c ≤ 'z') || ('0' ≤ c && c ≤ '9')

/-- Flush of `tokenize`: keep the accumulated (reversed) run when it is
non-empty and at least `minLen` long. -/
def flushTok (minLen : Int) (cur : List Char) : List String :=
  if cur = [] then []
  else if (cur.length : Int) < minLen then []
  else [String.mk cur.reverse]

/-- The rune loop of `tokenize` (generate.go lines 107-138). -/
def tokenizeAux (minLen : Int) : List Char → List Char → List String
  | [], cur => flushTok minLen cur
  | c :: rest, cur =>
    if isLowerAlnum c then tokenizeAux minLen rest (c :: cur)
    else flushTok minLen cur ++ tokenizeAux minLen rest []

/-- Embedding of `tokenize`: lower-case, then runs of `[a-z0-9]` of length
at least `minLen`. -/
def tokenize (s : List Char) (minLen : Int) : List String :=
  tokenizeAux minLen (toLowerL s) []

/-- Termination measure for the capped cartesian product. -/
def altsMeasure : List (List String) → Nat
  | [] => 0
  | a :: rest => a.length + altsMeasure rest + 1

/-- The depth-first cartesian product with a 16-combination cap shared by
`expandKI` and `expandTokens` (generate.go lines 208-227 and 274-292):
`cur` is the partial choice, `out` the accumulated combinations; the cap
is checked on entry of every recursive call, exactly as in the source. -/
def cartGo : List (List String) → List String → List (List String) → List (List String)
  | alts, cur, out =>
    if 16 ≤ out.length then out
    else
      match alts with
      | [] => out ++ [cur]
      | [] :: _ => out
      | (v :: vtl) :: rest => cartGo (vtl :: rest) cur (cartGo rest (cur ++ [v]) out)
  termination_by alts _ _ => altsMeasure alts
  decreasing_by
  · simp [altsMeasure]
    omega
  · simp [altsMeasure]

/-- Go `sameTokens` (generate.go lines 301-311): element-wise equality. -/
def sameTokens (a b : List String) : Bool :=
  decide (a = b)

/-- The per-token KI/AI alternatives (generate.go lines 262-272). -/
def kiAlts (tokens : List String) : List (List String) :=
  tokens.map (fun t =>
    if t = "ki" then ["ki", "ai"]
    else if t = "ai" then ["ai", "ki"]
    else [t])

/-- Embedding of `expandKI` (generate.go lines 261-299): capped cartesian
product, then the stable base-tokens-first reorder (`sort.SliceStable`
with a boolean key is a stable partition). -/
def expandKI (tokens : List String) : List (List String) :=
  let out := cartGo (kiAlts tokens) [] []
  out.filter (fun s => sameTokens s tokens) ++
    out.filter (fun s => !(sameTokens s tokens))

/-- The per-token engineering alternatives (generate.go lines 196-206). -/
def engAlts (tokens : List String) : List (List String) :=
  tokens.map (fun t =>
    if t = "engineering" then ["engineering", "eng"]
    else if t = "engineer" then ["engineer", "eng"]
    else [t])

/-- Embedding of `expandTokens` (generate.go lines 195-229). -/
def expandTokens (tokens : List String) : List (List String) :=
  cartGo (engAlts tokens) [] []

/-- The null-byte join used as the dedup key (generate.go line 185). -/
def joinNull (s : List String) : String :=
  String.intercalate (String.mk [Char.ofNat 0]) s

/-- The sequence dedup loop of `sequences` (generate.go lines 181-192). -/
def dedupeSeqsAux : List (List String) → List String → List (List String)
  | [], _ => []
  | s :: rest, seen =>
    if seen.contains (joinNull s) then dedupeSeqsAux rest seen
    else s :: dedupeSeqsAux rest (joinNull s :: seen)

/-- Remove the element at index `d` (the one-out loop of `sequences`). -/
def dropIdx (l : List String) (d : Nat) : List String :=
  l.take d ++ l.drop (d + 1)

/-- Embedding of `sequences` (generate.go lines 140-193): the full token
list, the contiguous 2- and 3-grams, the one-out variants for 3..6 tokens,
deduplicated by null-joined key in first-seen order. -/
def sequencesGo (tokens : List String) : List (List String) :=
  if tokens = [] then []
  else
    let grams2 :=
      if tokens.length < 2 then []
      else (List.range (tokens.length - 1)).map (fun i => (tokens.drop i).take 2)
    let grams3 :=
      if tokens.length < 3 then []
      else (List.range (tokens.length - 2)).map (fun i => (tokens.drop i).take 3)
    let oneOut :=
      if 3 ≤ tokens.length ∧ tokens.length ≤ 6 then
        (List.range tokens.length).map (fun d => dropIdx tokens d)
      else []
    dedupeSeqsAux ([tokens] ++ grams2 ++ grams3 ++ oneOut) []

/-- Hyphen count of a label (`strings.Count(label, "-")`). -/
def countHyphens (label : String) : Nat :=
  label.data.count '-'

/-- The per-token score bonus of `scoreLabel` (generate.go lines 241-250). -/
def scoreTokenBonus (t : String) : Int :=
  if t = "agentic" then 5
  else if t = "agent" then 2
  else if t = "ki" ∨ t = "ai" then 2
  else 0

/-- Embedding of `scoreLabel` (generate.go lines 231-259). -/
def scoreLabel (tokens : List String) (label : String) : Int :=
  let s0 : Int := 100
  let s1 := if 2 < tokens.length then s0 - 5 * ((tokens.length : Int) - 2) else s0
  let s2 := s1 - 2 * (countHyphens label : Int)
  let s3 := if 14 < label.length then s2 - (((label.length - 14) / 2 : Nat) : Int) else s2
  let s4 := s3 + (tokens.map scoreTokenBonus).sum
  if s4 < 1 then 1 else if 100 < s4 then 100 else s4

/-- Go `strings.Trim(label, "-")`: strip hyphens from both edges. -/
def trimHyphens (l : List Char) : List Char :=
  ((l.dropWhile (fun c => c = '-')).reverse.dropWhile (fun c => c = '-')).reverse

/-- Embedding of `isValidLabel` (generate.go lines 313-328). -/
def isValidLabel (l : List Char) : Bool :=
  if l = [] || 63 < l.length then false
  else if l.head? = some '-' || l.getLast? = some '-' then false
  else l.all (fun c => ('a' ≤ c && c ≤ 'z') || ('0' ≤ c && c ≤ '9') || c = '-')

/-- The `seen` map update of `add` (generate.go lines 57-65), as an
association list keyed by label: keep the old score when it is at least
the new one, otherwise overwrite. -/
def updateSeen : List (String × Int) → String → Int → List (String × Int)
  | [], lab, sc => [(lab, sc)]
  | (k, v) :: rest, lab, sc =>
    if k = lab then (if sc ≤ v then (k, v) :: rest else (k, sc) :: rest)
    else (k, v) :: updateSeen rest lab sc

/-- The `add` closure of `Labels` (generate.go lines 56-65). -/
def addCand (seen : List (String × Int)) (label0 : String) (score : Int) :
    List (String × Int) :=
  let label := String.mk (trimHyphens label0.data)
  if ¬ isValidLabel label.data then seen
  else updateSeen seen label score

/-- One expanded sequence's contributions (generate.go lines 67-83):
hyphen form, concatenated form (at -3), and when enabled and binary the
two reversed forms (at -10 and -13). -/
def addForms (rev2 : Bool) (seen : List (String × Int)) (expanded : List String) :
    List (String × Int) :=
  let hyphen := String.intercalate "-" expanded
  let s1 := addCand seen hyphen (scoreLabel expanded hyphen)
  let concat := String.join expanded
  let s2 := addCand s1 concat (scoreLabel expanded concat - 3)
  if rev2 then
    match expanded with
    | [a, b] =>
      let rh := String.intercalate "-" [b, a]
      let s3 := addCand s2 rh (scoreLabel [b, a] rh - 10)
      let rc := String.join [b, a]
      addCand s3 rc (scoreLabel [b, a] rc - 13)
    | _ => s2
  else s2

/-- The candidate accumulation of `Labels` (generate.go lines 36-84), in
deterministic insertion order.  The Go map's unordered extraction is
modelled in the theorems by quantifying over permutations of this list. -/
def candList (o : GenOptions) (phrase : String) : List (String × Int) :=
  let p := trimSpace phrase.data
  if p = [] then []
  else
    let baseTokens := tokenize p o.minTokenLen
    if baseTokens = [] then []
    else
      let combos := if o.replaceKI then expandKI baseTokens else [baseTokens]
      combos.foldl
        (fun seen toks =>
          (sequencesGo toks).foldl
            (fun seen seq =>
              (expandTokens seq).foldl
                (fun seen expanded => addForms o.reverse2 seen expanded) seen)
            seen)
        []

/-- The Go comparator of `sort.Slice` (generate.go lines 91-99): score
descending, then shorter label, then lexicographic. -/
def candLess (a b : Candidate) : Bool :=
  if a.score ≠ b.score then decide (b.score < a.score)
  else if a.label.length ≠ b.label.length then decide (a.label.length < b.label.length)
  else decide (a.label < b.label)

/-- The non-strict order induced by `candLess`. -/
def candLE (a b : Candidate) : Bool :=
  !(candLess b a)

/-- The sort of `Labels`: `sort.Slice` with `candLess` has no ties between
distinct elements here (map keys are unique), so its output is the unique
`candLE`-sorted permutation, which `mergeSort` computes. -/
def sortCands (l : List Candidate) : List Candidate :=
  l.mergeSort candLE

/-- The cap of `Labels` (generate.go lines 101-103). -/
def truncateLabels (o : GenOptions) (l : List Candidate) : List Candidate :=
  if 0 < o.maxLabels ∧ o.maxLabels < (l.length : Int) then l.take o.maxLabels.toNat
  else l

/-- Candidates from the extracted (label, score) pairs. -/
def extractCands (l : List (String × Int)) : List Candidate :=
  l.map (fun p => ⟨p.1, p.2⟩)

/-- Sort and cap an extraction of the candidate map. -/
def labelsFromExtract (o : GenOptions) (ext : List Candidate) : List Candidate :=
  truncateLabels o (sortCands ext)

/-- Embedding of `Generator.Labels` (generate.go lines 36-105), using the
canonical insertion-order extraction of the candidate map. -/
def Labels (o : GenOptions) (phrase : String) : List Candidate :=
  labelsFromExtract o (extractCands (candList o phrase))

/-- The spec's ranking order: score descending, then shorter label first,
then lexicographically. -/
def specOrder (a b : Candidate) : Prop :=
  b.score < a.score ∨
    (a.score = b.score ∧
      (a.label.length < b.label.length ∨
        (a.label.length = b.label.length ∧ a.label ≤ b.label)))

end DotHunt.Generate

namespace DotHunt.Generate

lemma candLE_iff (a b : Candidate) :
    candLE a b = true ↔ specOrder a b := by
  unfold candLE candLess specOrder
  by_cases hs : a.score = b.score
  · by_cases hl : a.label.length = b.label.length
    · simp only [hs, hl, ne_eq, not_true_eq_false, if_false, lt_self_iff_false,
        false_or, true_and, Bool.not_eq_true', decide_eq_false_iff_not, not_lt]
    · have hs' : ¬ b.score ≠ a.score := by omega
      simp only [hs, ne_eq, hs', not_false_eq_true, if_false, ite_not, if_neg,
        lt_self_iff_false, false_or, true_and]
      by_cases h2 : b.label.length = a.label.length
      · exact absurd h2.symm hl
      · simp only [h2, if_neg, not_false_eq_true, Bool.not_eq_true',
          decide_eq_false_iff_not, not_lt, if_true]
        constructor
        · intro h
          left
          omega
        · intro h
          rcases h with h | ⟨h1, _⟩
          · omega
          · exact absurd h1 hl
  · have hs' : b.score ≠ a.score := by omega
    simp only [ne_eq, hs', not_false_eq_true, if_true, Bool.not_eq_true',
      decide_eq_false_iff_not, not_lt]
    constructor
    · intro h
      left
      omega
    · intro h
      rcases h with h | ⟨h1, _⟩
      · omega
      · exact absurd h1 hs

lemma candLE_trans : ∀ (a b c : Candidate),
    candLE a b → candLE b c → candLE a c := by
  intro a b c hab hbc
  rw [candLE_iff] at hab hbc ⊢
  unfold specOrder at hab hbc ⊢
  rcases hab with h1 | ⟨h1, h1'⟩ <;> rcases hbc with h2 | ⟨h2, h2'⟩
  · left; omega
  · left; omega
  · left; omega
  · right
    refine ⟨h1.trans h2, ?_⟩
    rcases h1' with h3 | ⟨h3, h3'⟩ <;> rcases h2' with h4 | ⟨h4, h4'⟩
    · left; omega
    · left; omega
    · left; omega
    · right
      exact ⟨h3.trans h4, le_trans h3' h4'⟩

lemma candLE_total : ∀ (a b : Candidate), candLE a b || candLE b a := by
  intro a b
  cases h : candLE a b with
  | true => simp
  | false =>
    simp only [Bool.false_or]
    have hno : ¬ specOrder a b := by
      intro hs
      rw [(candLE_iff a b).mpr hs] at h
      cases h
    rw [candLE_iff]
    unfold specOrder at hno ⊢
    push_neg at hno
    obtain ⟨h1, h2⟩ := hno
    rcases lt_trichotomy a.score b.score with hs | hs | hs
    · left
      exact hs
    · right
      refine ⟨hs.symm, ?_⟩
      obtain ⟨h3, h4⟩ := h2 hs
      rcases lt_trichotomy a.label.length b.label.length with hl | hl | hl
      · exact absurd hl (not_lt.mpr h3)
      · right
        exact ⟨hl.symm, le_of_lt (h4 hl)⟩
      · left
        exact hl
    · exact absurd hs (not_lt.mpr h1)

lemma candLE_antisymm : ∀ (a b : Candidate),
    candLE a b = true → candLE b a = true → a = b := by
  intro a b hab hba
  rw [candLE_iff] at hab hba
  unfold specOrder at hab hba
  have hs : a.score = b.score := by
    rcases hab with h | ⟨h, _⟩ <;> rcases hba with h' | ⟨h', _⟩ <;> omega
  have hab' := hab.resolve_left (by omega)
  have hba' := hba.resolve_left (by omega)
  have hl : a.label.length = b.label.length := by
    rcases hab'.2 with h | ⟨h, _⟩ <;> rcases hba'.2 with h' | ⟨h', _⟩ <;> omega
  have hlab : a.label = b.label := by
    have h1 := (hab'.2.resolve_left (by omega)).2
    have h2 := (hba'.2.resolve_left (by omega)).2
    exact le_antisymm h1 h2
  cases a
  cases b
  simp_all

end DotHunt.Generate

namespace DotHunt.Generate

/-- C8.  The label generator is deterministic: for any extraction order of
the candidate map (any permutation of the accumulated candidates), sorting
and capping yields exactly the canonical `Labels` list, because the
comparator is a total order that is antisymmetric on candidates; moreover
the output is sorted by score descending, then shorter label, then
lexicographic, and its length never exceeds `max_labels`. -/
theorem labels_deterministic (o : GenOptions) (phrase : String)
    (ext : List Candidate)
    (hperm : ext.Perm (extractCands (candList (genNew o) phrase))) :
    labelsFromExtract (genNew o) ext = Labels (genNew o) phrase ∧
    (Labels (genNew o) phrase).Sorted specOrder ∧
    ((Labels (genNew o) phrase).length : Int) ≤ (genNew o).maxLabels := by
  have hsort1 : (sortCands ext).Pairwise (fun x y => candLE x y = true) :=
    List.sorted_mergeSort (fun a b c => candLE_trans a b c) candLE_total ext
  have hsort2 : (sortCands (extractCands (candList (genNew o) phrase))).Pairwise
      (fun x y => candLE x y = true) :=
    List.sorted_mergeSort (fun a b c => candLE_trans a b c) candLE_total _
  have hperm2 : List.Perm (sortCands ext)
      (sortCands (extractCands (candList (genNew o) phrase))) :=
    ((List.mergeSort_perm ext candLE).trans hperm).trans
      (List.mergeSort_perm _ candLE).symm
  haveI : IsAntisymm Candidate (fun x y => candLE x y = true) :=
    ⟨fun a b => candLE_antisymm a b⟩
  have heq : sortCands ext = sortCands (extractCands (candList (genNew o) phrase)) :=
    List.eq_of_perm_of_sorted hperm2 hsort1 hsort2
  refine ⟨?_, ?_, ?_⟩
  · unfold labelsFromExtract Labels labelsFromExtract
    rw [heq]
  · have hpw : (Labels (genNew o) phrase).Pairwise (fun x y => candLE x y = true) := by
      unfold Labels labelsFromExtract truncateLabels
      split
      · exact List.Pairwise.sublist (List.take_sublist _ _) hsort2
      · exact hsort2
    exact hpw.imp (fun h => (candLE_iff _ _).mp h)
  · have hmax : 0 < (genNew o).maxLabels := by
      unfold genNew
      dsimp only
      split <;> omega
    unfold Labels labelsFromExtract truncateLabels
    split
    · next hcond =>
      have hlen := List.length_take_le ((genNew o).maxLabels.toNat)
        (sortCands (extractCands (candList (genNew o) phrase)))
      have : ((genNew o).maxLabels.toNat : Int) = (genNew o).maxLabels :=
        Int.toNat_of_nonneg (le_of_lt hmax)
      omega
    · next hcond =>
      push_neg at hcond
      exact le_of_not_lt (by
        intro hlt
        exact absurd (hcond hmax) (not_le.mpr hlt))

/-- Witness for C8: a reversed extraction of the candidates for a concrete
phrase sorts to the same ranked list. -/
theorem labels_deterministic_witness :
    labelsFromExtract (genNew ⟨0, true, true, true, 0⟩)
        (extractCands (candList (genNew ⟨0, true, true, true, 0⟩) "ab cd")).reverse =
      Labels (genNew ⟨0, true, true, true, 0⟩) "ab cd" :=
  (labels_deterministic ⟨0, true, true, true, 0⟩ "ab cd" _
    (List.reverse_perm _)).1

end DotHunt.Generate
